import Mathlib

/-!
Verification of the byte-analysis core of `analyze_bytes.py`
(`logic_reverse_engineering/scripts/analyze_bytes.py`).

The development shallowly embeds the two core functions of that script:

* `analyze_offset` — interpret a bounded window of bytes at an offset under
  every fixed-width encoding whose width matches the window length, plus an
  optional UTF-8 textual interpretation;
* `scan_for_value` — two-pass exhaustive unaligned byte-equality search of a
  buffer for the little-endian and big-endian 4-byte encodings of a target
  value.

Buffers are `List Nat` (each element one octet).  Python builtins that live
outside the script are treated as follows:

* `struct.pack` / `struct.unpack` are implemented bit-exactly, including
  CPython's binary64 → binary32 conversion in `_PyFloat_Pack4` (round to
  nearest, ties to even, `OverflowError` when a finite double is out of
  binary32 range);
* `float(...)` and `int(...)` string parsing are parameters of the embedding
  (`String → Option PyFloat`, `String → Option Int`), `none` modelling
  `ValueError`;
* `str.isprintable` is a parameter `Nat → Bool` applied to every decoded
  codepoint (Python defines `isprintable` as: every character printable,
  the empty string vacuously so);
* `bytes.decode("utf-8")` is implemented as the standard strict UTF-8
  decoder (rejecting continuation errors, overlong forms, surrogates and
  codepoints above U+10FFFF), `none` modelling `UnicodeDecodeError`.
-/

/-- A Python float, represented by its IEEE-754 binary64 bit fields:
sign, biased exponent (0..2047) and fractional field (< 2^52). -/
structure PyFloat where
  sign : Bool
  exp : Nat
  frac : Nat
deriving DecidableEq, Repr

/-- The exceptions the script can raise while scanning: `ValueError` from
`float(...)`/`int(...)` parsing, `struct.error` from packing an out-of-range
integer, `OverflowError` from packing an out-of-range finite float. -/
inductive PyError where
  | valueError
  | structError
  | overflowError
deriving DecidableEq, Repr

/-- The `--type` argument of the `scan` command: `float` or `int`. -/
inductive ValueType where
  | float
  | int
deriving DecidableEq, Repr

/-- Encoding tags.  The scanner's Python strings are `float_le`, `float_be`,
`uint32_le`, `uint32_be`; the interpreter's printed labels are `Float (LE)`,
`Float (BE)`, `Uint32 (LE)`, `Uint32 (BE)`, `Int32 (LE)`, `Int32 (BE)`,
`Uint16 (LE)`, `Uint16 (BE)`, `Uint8`, `Int8`, `ASCII`, `UTF-8 String`. -/
inductive Enc where
  | float32_le
  | float32_be
  | uint32_le
  | uint32_be
  | int32_le
  | int32_be
  | uint16_le
  | uint16_be
  | uint8
  | int8
  | ascii
  | utf8
deriving DecidableEq, Repr

/-- A decoded value: a float, an integer, a single character (the `ASCII`
line) or a decoded text (list of Unicode codepoints). -/
inductive PyValue where
  | float (x : PyFloat)
  | int (n : Int)
  | char (c : Nat)
  | text (s : List Nat)
deriving DecidableEq, Repr

/-- One printed interpretation line: either a decoded value for an encoding,
or the `[invalid]` marker printed by the `except` branches of the 4-byte
case of `analyze_offset`. -/
inductive Interp where
  | ok (e : Enc) (v : PyValue)
  | invalid (e : Enc)
deriving DecidableEq, Repr

/-- Encoding tag of an interpretation line. -/
def encOf : Interp → Enc
  | .ok e _ => e
  | .invalid e => e

/-- Bit fields to a 32-bit IEEE-754 word: sign bit, 8 exponent bits,
23 fraction bits. -/
def mkF32word (sign : Bool) (eb fr : Nat) : Nat :=
  (if sign then 2147483648 else 0) + eb * 8388608 + fr

/-- Binary digit count of `m`, computed with explicit fuel (any fuel at
least `m` is enough, since `m` has at most `m` binary digits). -/
def bitLenFuel : Nat → Nat → Nat
  | 0, _ => 0
  | fuel + 1, m => if m = 0 then 0 else bitLenFuel fuel (m / 2) + 1

/-- Number of binary digits of `n` (`0` for `n = 0`); for positive `n` this
is `floor (log2 n) + 1`. -/
def natBitLen (n : Nat) : Nat := bitLenFuel n n

/-- Shift `M` right by `k` bits, rounding to nearest with ties to even. -/
def rshiftRound (M k : Nat) : Nat :=
  let d := 2 ^ k
  let q := M / d
  let r := M % d
  if d < 2 * r then q + 1
  else if 2 * r < d then q
  else if q % 2 = 0 then q else q + 1

/-- CPython `_PyFloat_Pack4` on IEEE platforms: convert the binary64 value to
binary32 (round to nearest, ties to even) and return its 32-bit word, or
`OverflowError` when a finite double converts to an infinity.  NaNs convert
to a quiet NaN word, infinities and zeros pass through, tiny values flush to
subnormals or to zero without error. -/
def roundF64toF32word (x : PyFloat) : Except PyError Nat :=
  if x.exp = 2047 then
    if x.frac = 0 then .ok (mkF32word x.sign 255 0)
    else .ok (mkF32word x.sign 255 4194304)
  else
    let M : Nat := if x.exp = 0 then x.frac else 4503599627370496 + x.frac
    let E : Int := if x.exp = 0 then -1074 else (x.exp : Int) - 1075
    if M = 0 then .ok (mkF32word x.sign 0 0)
    else
      let q0 : Int := (natBitLen M : Int) - 1 + E - 23
      let q1 : Int := max q0 (-149)
      let s : Int := E - q1
      let c0 : Nat := if 0 ≤ s then M * 2 ^ s.toNat else rshiftRound M (-s).toNat
      let c : Nat := if c0 = 16777216 then 8388608 else c0
      let q2 : Int := if c0 = 16777216 then q1 + 1 else q1
      if 104 < q2 then .error .overflowError
      else if 8388608 ≤ c then .ok (mkF32word x.sign (q2 + 150).toNat (c - 8388608))
      else .ok (mkF32word x.sign 0 c)

/-- Little-endian byte serialization of a 32-bit word. -/
def pack4le (w : Nat) : List Nat :=
  [w % 256, w / 256 % 256, w / 65536 % 256, w / 16777216 % 256]

/-- Big-endian byte serialization of a 32-bit word. -/
def pack4be (w : Nat) : List Nat :=
  [w / 16777216 % 256, w / 65536 % 256, w / 256 % 256, w % 256]

/-- Python `struct.pack("<I", n)`: `struct.error` unless `0 <= n < 2^32`. -/
def pack_u32_le (n : Int) : Except PyError (List Nat) :=
  if 0 ≤ n ∧ n < 4294967296 then .ok (pack4le n.toNat) else .error .structError

/-- Python `struct.pack(">I", n)`: `struct.error` unless `0 <= n < 2^32`. -/
def pack_u32_be (n : Int) : Except PyError (List Nat) :=
  if 0 ≤ n ∧ n < 4294967296 then .ok (pack4be n.toNat) else .error .structError

/-- Python `struct.pack("<f", x)`. -/
def pack_f32_le (x : PyFloat) : Except PyError (List Nat) :=
  match roundF64toF32word x with
  | .error e => .error e
  | .ok w => .ok (pack4le w)

/-- Python `struct.pack(">f", x)`. -/
def pack_f32_be (x : PyFloat) : Except PyError (List Nat) :=
  match roundF64toF32word x with
  | .error e => .error e
  | .ok w => .ok (pack4be w)

/-- Little-endian word of a byte list (`b0 + 256*b1 + ...`). -/
def wordOfBytesLE : List Nat → Nat
  | [] => 0
  | b :: rest => b + 256 * wordOfBytesLE rest

/-- Two's-complement reading of a 32-bit word. -/
def toSigned32 (w : Nat) : Int :=
  if w < 2147483648 then (w : Int) else (w : Int) - 4294967296

/-- Two's-complement reading of an 8-bit byte. -/
def toSigned8 (b : Nat) : Int :=
  if b < 128 then (b : Int) else (b : Int) - 256

/-- Exact widening of an IEEE-754 binary32 word to a binary64 value,
as performed when Python `struct.unpack` returns a float. -/
def f32bitsToF64 (w : Nat) : PyFloat :=
  let sign : Bool := decide (w / 2147483648 % 2 = 1)
  let eb := w / 8388608 % 256
  let fr := w % 8388608
  if eb = 255 then ⟨sign, 2047, fr * 536870912⟩
  else if eb = 0 then
    if fr = 0 then ⟨sign, 0, 0⟩
    else
      let L := natBitLen fr
      ⟨sign, L + 873, fr * 2 ^ (53 - L) - 4503599627370496⟩
  else ⟨sign, eb + 896, fr * 536870912⟩

/-- Python `struct.unpack("<f", data)[0]`: requires exactly 4 bytes
(`struct.error` otherwise, modelled as `none`), never fails on 4 bytes. -/
def unpack_f32_le (data : List Nat) : Option PyValue :=
  if data.length = 4 then some (.float (f32bitsToF64 (wordOfBytesLE data))) else none

/-- Python `struct.unpack(">f", data)[0]`. -/
def unpack_f32_be (data : List Nat) : Option PyValue :=
  if data.length = 4 then some (.float (f32bitsToF64 (wordOfBytesLE data.reverse))) else none

/-- Python `struct.unpack("<I", data)[0]`. -/
def unpack_u32_le (data : List Nat) : Option PyValue :=
  if data.length = 4 then some (.int (wordOfBytesLE data)) else none

/-- Python `struct.unpack(">I", data)[0]`. -/
def unpack_u32_be (data : List Nat) : Option PyValue :=
  if data.length = 4 then some (.int (wordOfBytesLE data.reverse)) else none

/-- Python `struct.unpack("<i", data)[0]`. -/
def unpack_i32_le (data : List Nat) : Option PyValue :=
  if data.length = 4 then some (.int (toSigned32 (wordOfBytesLE data))) else none

/-- Python `struct.unpack(">i", data)[0]`. -/
def unpack_i32_be (data : List Nat) : Option PyValue :=
  if data.length = 4 then some (.int (toSigned32 (wordOfBytesLE data.reverse))) else none

/-- Python `struct.unpack("<H", data)[0]`. -/
def unpack_u16_le (data : List Nat) : Option PyValue :=
  if data.length = 2 then some (.int (wordOfBytesLE data)) else none

/-- Python `struct.unpack(">H", data)[0]`. -/
def unpack_u16_be (data : List Nat) : Option PyValue :=
  if data.length = 2 then some (.int (wordOfBytesLE data.reverse)) else none

/-- A `try`-wrapped interpretation of the 4-byte case of `analyze_offset`:
print the decoded value, or `[invalid]` when unpacking raised. -/
def tryInterp (e : Enc) : Option PyValue → Interp
  | some v => .ok e v
  | none => .invalid e

/-- The six interpretation lines printed by `analyze_offset` when exactly
4 bytes were read (`analyze_bytes.py` lines 39-83), in source order. -/
def interp4 (data : List Nat) : List Interp :=
  [tryInterp .float32_le (unpack_f32_le data),
   tryInterp .float32_be (unpack_f32_be data),
   tryInterp .uint32_le (unpack_u32_le data),
   tryInterp .uint32_be (unpack_u32_be data),
   tryInterp .int32_le (unpack_i32_le data),
   tryInterp .int32_be (unpack_i32_be data)]

/-- The interpretation lines printed when exactly 2 bytes were read
(`analyze_bytes.py` lines 85-100); the `except: pass` branches omit the
line instead of printing `[invalid]`. -/
def interp2 (data : List Nat) : List Interp :=
  (match unpack_u16_le data with
   | some v => [Interp.ok .uint16_le v]
   | none => []) ++
  (match unpack_u16_be data with
   | some v => [Interp.ok .uint16_be v]
   | none => [])

/-- The interpretation lines printed when exactly 1 byte was read
(`analyze_bytes.py` lines 102-108): `Uint8`, `Int8`, and `ASCII` when the
byte lies in the printable ASCII range `[0x20, 0x7E]`. -/
def interp1 (data : List Nat) : List Interp :=
  match data with
  | [b] =>
    [Interp.ok .uint8 (.int b), Interp.ok .int8 (.int (toSigned8 b))] ++
    (if 32 ≤ b ∧ b ≤ 126 then [Interp.ok .ascii (.char b)] else [])
  | _ => []

/-- Continuation byte test for strict UTF-8 decoding. -/
def isContByte (b : Nat) : Bool := decide (128 ≤ b ∧ b ≤ 191)

/-- Admissible second byte of a 3-byte UTF-8 sequence (excludes overlong
forms after `0xE0` and surrogate codepoints after `0xED`). -/
def second3OK (b b2 : Nat) : Bool :=
  if b = 224 then decide (160 ≤ b2 ∧ b2 ≤ 191)
  else if b = 237 then decide (128 ≤ b2 ∧ b2 ≤ 159)
  else isContByte b2

/-- Admissible second byte of a 4-byte UTF-8 sequence (excludes overlong
forms after `0xF0` and codepoints above U+10FFFF after `0xF4`). -/
def second4OK (b b2 : Nat) : Bool :=
  if b = 240 then decide (144 ≤ b2 ∧ b2 ≤ 191)
  else if b = 244 then decide (128 ≤ b2 ∧ b2 ≤ 143)
  else isContByte b2

/-- Strict UTF-8 decoding of a byte list into Unicode codepoints, as by
Python `bytes.decode("utf-8")`; `none` models `UnicodeDecodeError`. -/
def utf8Decode : List Nat → Option (List Nat)
  | [] => some []
  | b :: rest =>
    if b < 128 then
      match utf8Decode rest with
      | some t => some (b :: t)
      | none => none
    else if 194 ≤ b ∧ b ≤ 223 then
      match rest with
      | b2 :: rest2 =>
        if isContByte b2 then
          match utf8Decode rest2 with
          | some t => some (((b - 192) * 64 + (b2 - 128)) :: t)
          | none => none
        else none
      | [] => none
    else if 224 ≤ b ∧ b ≤ 239 then
      match rest with
      | b2 :: b3 :: rest3 =>
        if second3OK b b2 && isContByte b3 then
          match utf8Decode rest3 with
          | some t => some (((b - 224) * 4096 + (b2 - 128) * 64 + (b3 - 128)) :: t)
          | none => none
        else none
      | _ => none
    else if 240 ≤ b ∧ b ≤ 244 then
      match rest with
      | b2 :: b3 :: b4 :: rest4 =>
        if second4OK b b2 && isContByte b3 && isContByte b4 then
          match utf8Decode rest4 with
          | some t =>
            some (((b - 240) * 262144 + (b2 - 128) * 4096 + (b3 - 128) * 64 + (b4 - 128)) :: t)
          | none => none
        else none
      | _ => none
    else none

/-- The `UTF-8 String` line of `analyze_offset` (`analyze_bytes.py` lines
110-116): decode the whole window as UTF-8 and keep the interpretation only
when the decode succeeds and every decoded codepoint satisfies the
printability predicate `p` (Python `str.isprintable`, true on the empty
string). -/
def utf8Part (p : Nat → Bool) (data : List Nat) : List Interp :=
  match utf8Decode data with
  | some text => if text.all p then [Interp.ok .utf8 (.text text)] else []
  | none => []

/-- The width-dispatched numeric interpretations of `analyze_offset`
(`analyze_bytes.py` lines 38-108): the branch taken depends only on the
actual number of bytes read. -/
def widthInterps (data : List Nat) : List Interp :=
  if data.length = 4 then interp4 data
  else if data.length = 2 then interp2 data
  else if data.length = 1 then interp1 data
  else []

/-- All interpretation lines printed by `analyze_offset` for a window. -/
def analyze_interps (p : Nat → Bool) (data : List Nat) : List Interp :=
  widthInterps data ++ utf8Part p data

/-- Observable outcome of `analyze_offset`: the window actually read, the
short-read warning flag, and the printed interpretations. -/
structure AnalysisResult where
  window : List Nat
  shortRead : Bool
  interps : List Interp
deriving DecidableEq, Repr

/-- `analyze_offset(filename, offset, byte_count)` (`analyze_bytes.py` lines
13-118), abstracted over the in-memory buffer: `f.seek(offset)` then
`f.read(byte_count)` yields `(buffer.drop offset).take byte_count`; a
warning is printed when fewer bytes than requested were read; then the
interpretation lines follow. -/
def analyze_offset (p : Nat → Bool) (buffer : List Nat) (offset byte_count : Nat) :
    AnalysisResult :=
  let data := (buffer.drop offset).take byte_count
  ⟨data, decide (data.length < byte_count), analyze_interps p data⟩

/-- One scan pass (`analyze_bytes.py` lines 142-144 and analogues): the
offsets `i` in `range(len(data) - 3)` where `data[i:i+4]` equals the
encoded target, in ascending order. -/
def scanPass (data tb : List Nat) : List Nat :=
  (List.range (data.length - 3)).filter (fun i => decide ((data.drop i).take 4 = tb))

/-- Encoding tag attached by the first scan pass (little-endian). -/
def passTag1 : ValueType → Enc
  | .float => .float32_le
  | .int => .uint32_le

/-- Encoding tag attached by the second scan pass (big-endian). -/
def passTag2 : ValueType → Enc
  | .float => .float32_be
  | .int => .uint32_be

/-- Parse-then-encode of the scan target for the first (little-endian) pass:
`struct.pack("<f", float(target))` or `struct.pack("<I", int(target))`. -/
def encodeTargetLE (pF : String → Option PyFloat) (pI : String → Option Int)
    (target : String) : ValueType → Except PyError (List Nat)
  | .float =>
    match pF target with
    | none => .error .valueError
    | some x => pack_f32_le x
  | .int =>
    match pI target with
    | none => .error .valueError
    | some n => pack_u32_le n

/-- Parse-then-encode of the scan target for the second (big-endian) pass:
`struct.pack(">f", float(target))` or `struct.pack(">I", int(target))`. -/
def encodeTargetBE (pF : String → Option PyFloat) (pI : String → Option Int)
    (target : String) : ValueType → Except PyError (List Nat)
  | .float =>
    match pF target with
    | none => .error .valueError
    | some x => pack_f32_be x
  | .int =>
    match pI target with
    | none => .error .valueError
    | some n => pack_u32_be n

/-- `scan_for_value(filename, target_value, value_type)` (`analyze_bytes.py`
lines 121-163), abstracted over the in-memory buffer and the Python string
parsers: encode the target little-endian, collect the first pass's matches,
encode big-endian, append the second pass's matches.  Any exception raised
while parsing or packing aborts the whole operation with no matches. -/
def scan_for_value (pF : String → Option PyFloat) (pI : String → Option Int)
    (data : List Nat) (target : String) (vt : ValueType) :
    Except PyError (List (Nat × Enc)) :=
  match vt with
  | .float =>
    match pF target with
    | none => .error .valueError
    | some x =>
      match pack_f32_le x with
      | .error e => .error e
      | .ok tb1 =>
        let m1 := (scanPass data tb1).map (fun i => (i, Enc.float32_le))
        match pack_f32_be x with
        | .error e => .error e
        | .ok tb2 =>
          .ok (m1 ++ (scanPass data tb2).map (fun i => (i, Enc.float32_be)))
  | .int =>
    match pI target with
    | none => .error .valueError
    | some n =>
      match pack_u32_le n with
      | .error e => .error e
      | .ok tb1 =>
        let m1 := (scanPass data tb1).map (fun i => (i, Enc.uint32_le))
        match pack_u32_be n with
        | .error e => .error e
        | .ok tb2 =>
          .ok (m1 ++ (scanPass data tb2).map (fun i => (i, Enc.uint32_be)))

/-- A float parser defined on the decimal string for `2^128`, the smallest
power of two beyond binary32 range; `float` parses it exactly (it is
representable in binary64 as `⟨false, 1151, 0⟩`). -/
def parseFloatTwo128 : String → Option PyFloat :=
  fun s =>
    if s = "340282366920938463463374607431768211456" then some ⟨false, 1151, 0⟩ else none

/-- An int parser that always fails (models `int` on non-numeric strings). -/
def parseIntNone : String → Option Int := fun _ => none

/-- A float parser that always fails (models `float` on non-numeric strings). -/
def parseFloatNone : String → Option PyFloat := fun _ => none

/-- An int parser returning `0` (models `int("0")`). -/
def parseIntZero : String → Option Int := fun _ => some 0

/-- An int parser returning `60` (models `int("60")`). -/
def parseIntSixty : String → Option Int := fun _ => some 60

/-- Membership in one scan pass: exactly the in-range offsets whose 4-byte
slice equals the target. -/
theorem mem_scanPass (data tb : List Nat) (i : Nat) :
    i ∈ scanPass data tb ↔
      4 ≤ data.length ∧ i ≤ data.length - 4 ∧ (data.drop i).take 4 = tb := by
  simp only [scanPass, List.mem_filter, List.mem_range, decide_eq_true_eq]
  constructor
  · rintro ⟨h1, h2⟩
    exact ⟨by omega, by omega, h2⟩
  · rintro ⟨h1, h2, h3⟩
    exact ⟨by omega, h3⟩

/-- A buffer shorter than 4 bytes yields an empty pass. -/
theorem scanPass_eq_nil (data tb : List Nat) (h : data.length < 4) :
    scanPass data tb = [] := by
  unfold scanPass
  have h3 : data.length - 3 = 0 := by omega
  rw [h3]
  rfl

/-- Pass offsets are strictly increasing. -/
theorem scanPass_pairwise (data tb : List Nat) :
    List.Pairwise (· < ·) (scanPass data tb) :=
  List.Pairwise.sublist (List.filter_sublist _) (List.pairwise_lt_range _)

/-- Pass offsets are duplicate-free. -/
theorem scanPass_nodup (data tb : List Nat) : (scanPass data tb).Nodup :=
  (scanPass_pairwise data tb).imp (fun h => Nat.ne_of_lt h)

/-- A successful `struct.pack("<I", _)` yields 4 bytes. -/
theorem pack_u32_le_ok_length (n : Int) (tb : List Nat) (h : pack_u32_le n = .ok tb) :
    tb.length = 4 := by
  unfold pack_u32_le at h
  split at h
  · cases h
    rfl
  · cases h

/-- A successful `struct.pack(">I", _)` yields 4 bytes. -/
theorem pack_u32_be_ok_length (n : Int) (tb : List Nat) (h : pack_u32_be n = .ok tb) :
    tb.length = 4 := by
  unfold pack_u32_be at h
  split at h
  · cases h
    rfl
  · cases h

/-- A successful `struct.pack("<f", _)` yields 4 bytes. -/
theorem pack_f32_le_ok_length (x : PyFloat) (tb : List Nat) (h : pack_f32_le x = .ok tb) :
    tb.length = 4 := by
  unfold pack_f32_le at h
  cases hw : roundF64toF32word x <;> rw [hw] at h
  · cases h
  · cases h
    rfl

/-- A successful `struct.pack(">f", _)` yields 4 bytes. -/
theorem pack_f32_be_ok_length (x : PyFloat) (tb : List Nat) (h : pack_f32_be x = .ok tb) :
    tb.length = 4 := by
  unfold pack_f32_be at h
  cases hw : roundF64toF32word x <;> rw [hw] at h
  · cases h
  · cases h
    rfl

/-- Structure of a successful scan: both target encodings succeeded, and the
result is the tagged first pass followed by the tagged second pass. -/
theorem scan_ok_decomp (pF : String → Option PyFloat) (pI : String → Option Int)
    (data : List Nat) (t : String) (vt : ValueType) (ms : List (Nat × Enc))
    (h : scan_for_value pF pI data t vt = .ok ms) :
    ∃ tb1 tb2, encodeTargetLE pF pI t vt = .ok tb1 ∧
      encodeTargetBE pF pI t vt = .ok tb2 ∧
      ms = (scanPass data tb1).map (fun i => (i, passTag1 vt)) ++
           (scanPass data tb2).map (fun i => (i, passTag2 vt)) := by
  cases vt
  case float =>
    cases hx : pF t
    case none => simp [scan_for_value, hx] at h
    case some x =>
      cases htb1 : pack_f32_le x
      case error e => simp [scan_for_value, hx, htb1] at h
      case ok tb1 =>
        cases htb2 : pack_f32_be x
        case error e => simp [scan_for_value, hx, htb1, htb2] at h
        case ok tb2 =>
          simp only [scan_for_value, hx, htb1, htb2] at h
          cases h
          exact ⟨tb1, tb2, by simp [encodeTargetLE, hx, htb1],
            by simp [encodeTargetBE, hx, htb2], rfl⟩
  case int =>
    cases hx : pI t
    case none => simp [scan_for_value, hx] at h
    case some n =>
      cases htb1 : pack_u32_le n
      case error e => simp [scan_for_value, hx, htb1] at h
      case ok tb1 =>
        cases htb2 : pack_u32_be n
        case error e => simp [scan_for_value, hx, htb1, htb2] at h
        case ok tb2 =>
          simp only [scan_for_value, hx, htb1, htb2] at h
          cases h
          exact ⟨tb1, tb2, by simp [encodeTargetLE, hx, htb1],
            by simp [encodeTargetBE, hx, htb2], rfl⟩

/-- A successful first-pass encoding yields 4 bytes. -/
theorem encodeTargetLE_ok_length (pF : String → Option PyFloat)
    (pI : String → Option Int) (t : String) (vt : ValueType) (tb : List Nat)
    (h : encodeTargetLE pF pI t vt = .ok tb) : tb.length = 4 := by
  cases vt
  case float =>
    cases hx : pF t <;> simp only [encodeTargetLE, hx] at h
    · cases h
    · exact pack_f32_le_ok_length _ _ h
  case int =>
    cases hx : pI t <;> simp only [encodeTargetLE, hx] at h
    · cases h
    · exact pack_u32_le_ok_length _ _ h

/-- Every element of the UTF-8 part is a decoded-text interpretation. -/
theorem utf8Part_mem (p : Nat → Bool) (data : List Nat) (x : Interp)
    (hx : x ∈ utf8Part p data) : ∃ s, x = Interp.ok .utf8 (.text s) := by
  unfold utf8Part at hx
  split at hx
  · rename_i t _
    split at hx
    · simp at hx
      exact ⟨t, hx⟩
    · simp at hx
  · simp at hx

/-- The UTF-8 interpretation of a window is present exactly when the strict
decode succeeds and every decoded codepoint is printable. -/
theorem utf8Part_mem_iff (p : Nat → Bool) (data : List Nat) (s : List Nat) :
    Interp.ok .utf8 (.text s) ∈ utf8Part p data ↔
      utf8Decode data = some s ∧ s.all p = true := by
  unfold utf8Part
  split
  · rename_i t hd
    rw [hd]
    split
    · rename_i ha
      constructor
      · intro hm
        simp at hm
        subst hm
        exact ⟨rfl, ha⟩
      · rintro ⟨h1, h2⟩
        injection h1 with h1
        subst h1
        simp
    · rename_i ha
      constructor
      · intro hm
        simp at hm
      · rintro ⟨h1, h2⟩
        injection h1 with h1
        subst h1
        exact absurd h2 ha
  · rename_i hd
    rw [hd]
    simp

/-- Every width-dispatched interpretation line is a successfully decoded
value carrying a non-UTF-8 tag. -/
theorem widthInterps_mem (data : List Nat) (x : Interp) (hx : x ∈ widthInterps data) :
    (∃ e v, x = Interp.ok e v) ∧ encOf x ≠ Enc.utf8 := by
  unfold widthInterps at hx
  split at hx
  · rename_i h4
    simp only [interp4, tryInterp, unpack_f32_le, unpack_f32_be, unpack_u32_le,
      unpack_u32_be, unpack_i32_le, unpack_i32_be, h4, if_pos] at hx
    simp only [List.mem_cons, List.not_mem_nil, or_false] at hx
    rcases hx with rfl | rfl | rfl | rfl | rfl | rfl <;>
      exact ⟨⟨_, _, rfl⟩, by simp [encOf]⟩
  · split at hx
    · rename_i h2
      simp only [interp2, unpack_u16_le, unpack_u16_be, h2, if_pos] at hx
      simp only [List.mem_append, List.mem_cons, List.not_mem_nil, or_false] at hx
      rcases hx with rfl | rfl <;> exact ⟨⟨_, _, rfl⟩, by simp [encOf]⟩
    · split at hx
      · rename_i h1
        obtain ⟨b, rfl⟩ := List.length_eq_one.mp h1
        simp only [interp1] at hx
        by_cases hb : 32 ≤ b ∧ b ≤ 126
        · rw [if_pos hb] at hx
          simp only [List.mem_append, List.mem_cons, List.not_mem_nil, or_false] at hx
          rcases hx with (rfl | rfl) | rfl <;> exact ⟨⟨_, _, rfl⟩, by simp [encOf]⟩
        · rw [if_neg hb] at hx
          simp only [List.append_nil, List.mem_cons, List.not_mem_nil, or_false] at hx
          rcases hx with rfl | rfl <;> exact ⟨⟨_, _, rfl⟩, by simp [encOf]⟩
      · simp at hx

/-- C2: for every buffer and offset such that the actual window has exactly
4 bytes, the interpreter produces exactly 6 fixed-width interpretations, in
exactly the order `float32_le, float32_be, uint32_le, uint32_be, int32_le,
int32_be`, followed only by the optional UTF-8 interpretation; this holds
for every 4-byte pattern. -/
theorem spec_c2 (p : Nat → Bool) (buffer : List Nat) (offset bc : Nat)
    (h : (analyze_offset p buffer offset bc).window.length = 4) :
    ∃ v1 v2 v3 v4 v5 v6 rest,
      (analyze_offset p buffer offset bc).interps =
        [Interp.ok .float32_le (.float v1), Interp.ok .float32_be (.float v2),
         Interp.ok .uint32_le (.int v3), Interp.ok .uint32_be (.int v4),
         Interp.ok .int32_le (.int v5), Interp.ok .int32_be (.int v6)] ++ rest ∧
      ∀ x ∈ rest, ∃ s, x = Interp.ok .utf8 (.text s) := by
  refine ⟨f32bitsToF64 (wordOfBytesLE ((buffer.drop offset).take bc)),
    f32bitsToF64 (wordOfBytesLE ((buffer.drop offset).take bc).reverse),
    (wordOfBytesLE ((buffer.drop offset).take bc) : Int),
    (wordOfBytesLE ((buffer.drop offset).take bc).reverse : Int),
    toSigned32 (wordOfBytesLE ((buffer.drop offset).take bc)),
    toSigned32 (wordOfBytesLE ((buffer.drop offset).take bc).reverse),
    utf8Part p ((buffer.drop offset).take bc), ?_, ?_⟩
  · show analyze_interps p ((buffer.drop offset).take bc) = _
    have h4 : ((buffer.drop offset).take bc).length = 4 := h
    rw [analyze_interps]
    congr 1
    rw [widthInterps, if_pos h4]
    simp [interp4, tryInterp, unpack_f32_le, unpack_f32_be, unpack_u32_le, unpack_u32_be,
      unpack_i32_le, unpack_i32_be, h4]
  · exact fun x hx => utf8Part_mem p _ x hx

/-- C2 witness: the all-`0xFF` window. -/
theorem spec_c2_witness :
    ∃ v1 v2 v3 v4 v5 v6 rest,
      (analyze_offset (fun _ => false) [255, 255, 255, 255] 0 4).interps =
        [Interp.ok .float32_le (.float v1), Interp.ok .float32_be (.float v2),
         Interp.ok .uint32_le (.int v3), Interp.ok .uint32_be (.int v4),
         Interp.ok .int32_le (.int v5), Interp.ok .int32_be (.int v6)] ++ rest ∧
      ∀ x ∈ rest, ∃ s, x = Interp.ok .utf8 (.text s) :=
  spec_c2 (fun _ => false) [255, 255, 255, 255] 0 4 rfl

/-- C6: decoding never fails for a window whose length matches an attempted
fixed width: the `[invalid]` branch is unreachable for every window, and
every 4-byte pattern — NaN and infinity bit patterns included — unpacks to
a decoded float value. -/
theorem spec_c6 (p : Nat → Bool) (data : List Nat) :
    (∀ e, Interp.invalid e ∉ analyze_interps p data) ∧
    (data.length = 4 →
      unpack_f32_le data = some (PyValue.float (f32bitsToF64 (wordOfBytesLE data))) ∧
      unpack_f32_be data =
        some (PyValue.float (f32bitsToF64 (wordOfBytesLE data.reverse)))) := by
  constructor
  · intro e hmem
    rw [analyze_interps] at hmem
    rcases List.mem_append.mp hmem with hx | hx
    · obtain ⟨⟨e2, v, hev⟩, _⟩ := widthInterps_mem data _ hx
      simp at hev
    · obtain ⟨s, hs⟩ := utf8Part_mem p data _ hx
      simp at hs
  · intro h4
    exact ⟨by simp [unpack_f32_le, h4], by simp [unpack_f32_be, h4]⟩

/-- C6 witness: the quiet-NaN bit pattern `0x7FC00000` (bytes `00 00 C0 7F`
little-endian) is decoded as a float value, never reported invalid. -/
theorem spec_c6_witness :
    Interp.invalid Enc.float32_le ∉ analyze_interps (fun _ => true) [0, 0, 192, 127] ∧
    unpack_f32_le [0, 0, 192, 127] =
      some (PyValue.float (f32bitsToF64 (wordOfBytesLE [0, 0, 192, 127]))) :=
  ⟨(spec_c6 (fun _ => true) [0, 0, 192, 127]).1 Enc.float32_le,
   ((spec_c6 (fun _ => true) [0, 0, 192, 127]).2 rfl).1⟩

/-- C7: the interpreter reads `min(requested, len - offset)` bytes (clamped
at zero), dispatches on the actual window only, flags a short read as a
non-fatal warning, and a 2-byte window — also when 4 bytes were requested —
yields exactly the `uint16_le` and `uint16_be` interpretations (plus only
the optional UTF-8 one). -/
theorem spec_c7 (p : Nat → Bool) (buffer : List Nat) (offset bc : Nat) :
    (analyze_offset p buffer offset bc).window = (buffer.drop offset).take bc ∧
    (analyze_offset p buffer offset bc).window.length = min bc (buffer.length - offset) ∧
    (analyze_offset p buffer offset bc).interps =
      analyze_interps p ((analyze_offset p buffer offset bc).window) ∧
    (analyze_offset p buffer offset bc).shortRead =
      decide ((analyze_offset p buffer offset bc).window.length < bc) ∧
    ((analyze_offset p buffer offset bc).window.length = 2 →
      ∃ n1 n2 rest,
        (analyze_offset p buffer offset bc).interps =
          [Interp.ok .uint16_le (.int n1), Interp.ok .uint16_be (.int n2)] ++ rest ∧
        ∀ x ∈ rest, ∃ s, x = Interp.ok .utf8 (.text s)) := by
  refine ⟨rfl, ?_, rfl, rfl, ?_⟩
  · show ((buffer.drop offset).take bc).length = _
    rw [List.length_take, List.length_drop]
  · intro h2
    have h2' : ((buffer.drop offset).take bc).length = 2 := h2
    refine ⟨(wordOfBytesLE ((buffer.drop offset).take bc) : Int),
      (wordOfBytesLE ((buffer.drop offset).take bc).reverse : Int),
      utf8Part p ((buffer.drop offset).take bc), ?_, ?_⟩
    · show analyze_interps p ((buffer.drop offset).take bc) = _
      rw [analyze_interps]
      congr 1
      rw [widthInterps, if_neg (by omega), if_pos h2']
      simp [interp2, unpack_u16_le, unpack_u16_be, h2']
    · exact fun x hx => utf8Part_mem p _ x hx

/-- C7 witness: requesting 4 bytes of a 2-byte buffer yields exactly the
two `uint16` interpretations (plus the UTF-8 one). -/
theorem spec_c7_witness :
    ∃ n1 n2 rest,
      (analyze_offset (fun _ => true) [72, 105] 0 4).interps =
        [Interp.ok .uint16_le (.int n1), Interp.ok .uint16_be (.int n2)] ++ rest ∧
      ∀ x ∈ rest, ∃ s, x = Interp.ok .utf8 (.text s) :=
  (spec_c7 (fun _ => true) [72, 105] 0 4).2.2.2.2 rfl

/-- C8: a UTF-8 textual interpretation is included exactly when the strict
decode of the full window succeeds with every decoded codepoint printable,
and dropping it never affects the width-based numeric interpretations. -/
theorem spec_c8 (p : Nat → Bool) (data : List Nat) :
    (∀ s, Interp.ok .utf8 (.text s) ∈ analyze_interps p data ↔
      (utf8Decode data = some s ∧ s.all p = true)) ∧
    (analyze_interps p data).filter (fun x => decide (encOf x ≠ Enc.utf8)) =
      widthInterps data := by
  constructor
  · intro s
    rw [analyze_interps, List.mem_append]
    constructor
    · rintro (hx | hx)
      · have hne := (widthInterps_mem data _ hx).2
        simp [encOf] at hne
      · exact (utf8Part_mem_iff p data s).mp hx
    · intro hcond
      exact Or.inr ((utf8Part_mem_iff p data s).mpr hcond)
  · rw [analyze_interps, List.filter_append]
    have h1 : (widthInterps data).filter (fun x => decide (encOf x ≠ Enc.utf8)) =
        widthInterps data := by
      apply List.filter_eq_self.mpr
      intro a ha
      exact decide_eq_true (widthInterps_mem data a ha).2
    have h2 : (utf8Part p data).filter (fun x => decide (encOf x ≠ Enc.utf8)) = [] := by
      apply List.filter_eq_nil_iff.mpr
      intro a ha
      obtain ⟨s, rfl⟩ := utf8Part_mem p data a ha
      simp [encOf]
    rw [h1, h2, List.append_nil]

/-- C10: a zero-length window — for instance when the offset is at or past
the end of the buffer — produces no fixed-width interpretation but does
produce the UTF-8 interpretation of the empty string, since decoding zero
bytes succeeds and the empty text passes the printability check. -/
theorem spec_c10 (p : Nat → Bool) (buffer : List Nat) (offset bc : Nat)
    (h : (analyze_offset p buffer offset bc).window.length = 0) :
    (analyze_offset p buffer offset bc).interps = [Interp.ok .utf8 (.text [])] := by
  have h0 : ((buffer.drop offset).take bc).length = 0 := h
  have hw : (buffer.drop offset).take bc = [] := List.eq_nil_of_length_eq_zero h0
  show analyze_interps p ((buffer.drop offset).take bc) = _
  rw [hw]
  rfl

/-- C10 witness: reading past the end of a 2-byte buffer, with a
printability predicate that rejects everything — the empty text still
passes. -/
theorem spec_c10_witness :
    (analyze_offset (fun _ => false) [1, 2] 5 4).interps =
      [Interp.ok .utf8 (.text [])] :=
  spec_c10 (fun _ => false) [1, 2] 5 4 rfl

/-- C1: each scan pass examines every unaligned starting position from `0`
to `len - 4` inclusive and emits a match exactly where the 4-byte slice
equals the encoded target; on a buffer shorter than 4 bytes a successful
scan returns the empty result, and any successfully encoded target scans a
short buffer without error. -/
theorem spec_c1 (pF : String → Option PyFloat) (pI : String → Option Int)
    (data tb : List Nat) (t : String) (vt : ValueType) :
    (∀ i, i ∈ scanPass data tb ↔
      4 ≤ data.length ∧ i ≤ data.length - 4 ∧ (data.drop i).take 4 = tb) ∧
    (data.length < 4 → ∀ ms, scan_for_value pF pI data t vt = .ok ms → ms = []) ∧
    (data.length < 4 → ∀ tb1 tb2, encodeTargetLE pF pI t vt = .ok tb1 →
      encodeTargetBE pF pI t vt = .ok tb2 →
      scan_for_value pF pI data t vt = .ok []) := by
  refine ⟨mem_scanPass data tb, ?_, ?_⟩
  · intro hlen ms h
    obtain ⟨tb1, tb2, _, _, hms⟩ := scan_ok_decomp pF pI data t vt ms h
    rw [scanPass_eq_nil data tb1 hlen, scanPass_eq_nil data tb2 hlen] at hms
    simpa using hms
  · intro hlen tb1 tb2 h1 h2
    cases vt
    case float =>
      cases hx : pF t
      case none => simp [encodeTargetLE, hx] at h1
      case some x =>
        simp only [encodeTargetLE, hx] at h1
        simp only [encodeTargetBE, hx] at h2
        simp [scan_for_value, hx, h1, h2, scanPass_eq_nil data tb1 hlen,
          scanPass_eq_nil data tb2 hlen]
    case int =>
      cases hx : pI t
      case none => simp [encodeTargetLE, hx] at h1
      case some n =>
        simp only [encodeTargetLE, hx] at h1
        simp only [encodeTargetBE, hx] at h2
        simp [scan_for_value, hx, h1, h2, scanPass_eq_nil data tb1 hlen,
          scanPass_eq_nil data tb2 hlen]

/-- C1 witness: an overlapping-position match is found at an unaligned
offset, and a 1-byte buffer scans to the empty result without error. -/
theorem spec_c1_witness :
    (1 ∈ scanPass [9, 1, 2, 3, 4] [1, 2, 3, 4]) ∧
    (([] : List (Nat × Enc)) = []) ∧
    scan_for_value parseFloatNone parseIntZero [7] "0" .int = .ok [] :=
  ⟨((spec_c1 parseFloatNone parseIntZero [9, 1, 2, 3, 4] [1, 2, 3, 4] "0"
      .int).1 1).mpr (by decide),
   (spec_c1 parseFloatNone parseIntZero [7] [0, 0, 0, 0] "0" .int).2.1
      (by decide) [] rfl,
   (spec_c1 parseFloatNone parseIntZero [7] [0, 0, 0, 0] "0" .int).2.2
      (by decide) [0, 0, 0, 0] [0, 0, 0, 0] rfl rfl⟩

/-- C3: every successful scan result is the first (little-endian) pass's
matches in strictly ascending offset order, followed by the second
(big-endian) pass's matches in strictly ascending offset order, with the
two passes carrying distinct encoding tags — never interleaved. -/
theorem spec_c3 (pF : String → Option PyFloat) (pI : String → Option Int)
    (data : List Nat) (t : String) (vt : ValueType) (ms : List (Nat × Enc))
    (h : scan_for_value pF pI data t vt = .ok ms) :
    ∃ p1 p2 : List Nat,
      List.Pairwise (· < ·) p1 ∧ List.Pairwise (· < ·) p2 ∧
      ms = p1.map (fun i => (i, passTag1 vt)) ++ p2.map (fun i => (i, passTag2 vt)) ∧
      passTag1 vt ≠ passTag2 vt := by
  obtain ⟨tb1, tb2, _, _, hms⟩ := scan_ok_decomp pF pI data t vt ms h
  exact ⟨scanPass data tb1, scanPass data tb2, scanPass_pairwise data tb1,
    scanPass_pairwise data tb2, hms, by cases vt <;> simp [passTag1, passTag2]⟩

/-- C3 witness: scanning four zero bytes for integer `0` puts the
little-endian match before the big-endian one. -/
theorem spec_c3_witness :
    ∃ p1 p2 : List Nat,
      List.Pairwise (· < ·) p1 ∧ List.Pairwise (· < ·) p2 ∧
      [(0, Enc.uint32_le), (0, Enc.uint32_be)] =
        p1.map (fun i => (i, passTag1 .int)) ++ p2.map (fun i => (i, passTag2 .int)) ∧
      passTag1 .int ≠ passTag2 .int :=
  spec_c3 parseFloatNone parseIntZero [0, 0, 0, 0] "0" .int
    [(0, Enc.uint32_le), (0, Enc.uint32_be)] rfl

/-- C5: round-trip — whenever the target encodes little-endian to `tb` and
`tb` sits at offset `k` of the buffer, a successful scan reports the match
`(k, little-endian tag)`. -/
theorem spec_c5 (pF : String → Option PyFloat) (pI : String → Option Int)
    (data : List Nat) (t : String) (vt : ValueType) (k : Nat)
    (ms : List (Nat × Enc)) (tb : List Nat)
    (h : scan_for_value pF pI data t vt = .ok ms)
    (he : encodeTargetLE pF pI t vt = .ok tb)
    (hk : (data.drop k).take 4 = tb) :
    (k, passTag1 vt) ∈ ms := by
  obtain ⟨tb1, tb2, he1, he2, hms⟩ := scan_ok_decomp pF pI data t vt ms h
  rw [he] at he1
  injection he1 with he1
  subst he1
  have hlen : tb.length = 4 := encodeTargetLE_ok_length pF pI t vt tb he
  have hk4 : 4 ≤ data.length - k := by
    have hlen2 := congrArg List.length hk
    rw [List.length_take, List.length_drop, hlen] at hlen2
    omega
  subst hms
  refine List.mem_append.mpr (Or.inl ?_)
  refine List.mem_map.mpr ⟨k, ?_, rfl⟩
  exact (mem_scanPass data tb k).mpr ⟨by omega, by omega, hk⟩

/-- C5 witness: integer `60` encoded little-endian at offset 0 is found
with the little-endian tag. -/
theorem spec_c5_witness :
    (0, passTag1 .int) ∈ ([(0, Enc.uint32_le)] : List (Nat × Enc)) :=
  spec_c5 parseFloatNone parseIntSixty [60, 0, 0, 0] "60" .int 0
    [(0, Enc.uint32_le)] [60, 0, 0, 0] rfl rfl rfl

/-- Counting matches of a tagged pass at one offset: a duplicate-free pass
contributes exactly one result at each of its offsets. -/
theorem length_filter_fst_map (q : List Nat) (tag : Enc) (i : Nat) (hq : q.Nodup) :
    ((q.map (fun j => (j, tag))).filter (fun m => decide (m.1 = i))).length =
      if i ∈ q then 1 else 0 := by
  induction q with
  | nil => simp
  | cons a rest ih =>
    rw [List.nodup_cons] at hq
    by_cases hai : a = i
    · subst hai
      simp only [List.map_cons, List.filter_cons]
      rw [if_pos (by simp)]
      rw [List.length_cons, ih hq.2, if_neg hq.1, if_pos (List.mem_cons_self a rest)]
    · simp only [List.map_cons, List.filter_cons]
      rw [if_neg (by simp [hai]), ih hq.2]
      by_cases hmi : i ∈ rest
      · rw [if_pos hmi, if_pos (List.mem_cons_of_mem a hmi)]
      · have hni : i ∉ a :: rest := by
          intro hc
          rcases List.mem_cons.mp hc with h1 | h2
          · exact hai h1.symm
          · exact hmi h2
        rw [if_neg hmi, if_neg hni]

/-- Membership of a tagged pair in a tagged pass. -/
theorem mem_map_pair (q : List Nat) (i : Nat) (t1 t2 : Enc) :
    ((i, t1) ∈ q.map (fun j => (j, t2))) ↔ (i ∈ q ∧ t1 = t2) := by
  constructor
  · rintro hm
    obtain ⟨a, ha, heq⟩ := List.mem_map.mp hm
    injection heq with h1 h2
    subst h1
    exact ⟨ha, h2.symm⟩
  · rintro ⟨hi, rfl⟩
    exact List.mem_map.mpr ⟨i, hi, rfl⟩

/-- C9: when the little-endian and big-endian encodings of the target are
the identical byte string, a successful scan reports every matching offset
exactly twice — once with the pass-1 little-endian tag and once with the
pass-2 big-endian tag; matches are not deduplicated across passes. -/
theorem spec_c9 (pF : String → Option PyFloat) (pI : String → Option Int)
    (data : List Nat) (t : String) (vt : ValueType) (ms : List (Nat × Enc))
    (tb : List Nat)
    (h : scan_for_value pF pI data t vt = .ok ms)
    (hle : encodeTargetLE pF pI t vt = .ok tb)
    (hbe : encodeTargetBE pF pI t vt = .ok tb) :
    ∀ i, ((ms.filter (fun m => decide (m.1 = i))).length =
            if i ∈ scanPass data tb then 2 else 0) ∧
         ((i, passTag1 vt) ∈ ms ↔ i ∈ scanPass data tb) ∧
         ((i, passTag2 vt) ∈ ms ↔ i ∈ scanPass data tb) := by
  obtain ⟨tb1, tb2, he1, he2, hms⟩ := scan_ok_decomp pF pI data t vt ms h
  rw [hle] at he1
  rw [hbe] at he2
  injection he1 with he1
  injection he2 with he2
  subst he1
  subst he2
  subst hms
  have htag : passTag1 vt ≠ passTag2 vt := by cases vt <;> simp [passTag1, passTag2]
  intro i
  refine ⟨?_, ?_, ?_⟩
  · rw [List.filter_append, List.length_append,
      length_filter_fst_map _ _ _ (scanPass_nodup data tb),
      length_filter_fst_map _ _ _ (scanPass_nodup data tb)]
    by_cases hmem : i ∈ scanPass data tb <;> simp [hmem]
  · rw [List.mem_append, mem_map_pair, mem_map_pair]
    constructor
    · rintro (⟨hi, _⟩ | ⟨hi, habs⟩)
      · exact hi
      · exact absurd habs htag
    · intro hi
      exact Or.inl ⟨hi, rfl⟩
  · rw [List.mem_append, mem_map_pair, mem_map_pair]
    constructor
    · rintro (⟨hi, habs⟩ | ⟨hi, _⟩)
      · exact absurd habs.symm htag
      · exact hi
    · intro hi
      exact Or.inr ⟨hi, rfl⟩

/-- C9 witness: integer `0` encodes identically in both byte orders; in a
5-byte zero buffer offset `0` is reported exactly twice, once per tag. -/
theorem spec_c9_witness :
    (([(0, Enc.uint32_le), (1, Enc.uint32_le), (0, Enc.uint32_be),
        (1, Enc.uint32_be)].filter (fun m => decide (m.1 = 0))).length =
      if 0 ∈ scanPass [0, 0, 0, 0, 0] [0, 0, 0, 0] then 2 else 0) ∧
    ((0, passTag1 .int) ∈ [(0, Enc.uint32_le), (1, Enc.uint32_le),
        (0, Enc.uint32_be), (1, Enc.uint32_be)] ↔
      0 ∈ scanPass [0, 0, 0, 0, 0] [0, 0, 0, 0]) ∧
    ((0, passTag2 .int) ∈ [(0, Enc.uint32_le), (1, Enc.uint32_le),
        (0, Enc.uint32_be), (1, Enc.uint32_be)] ↔
      0 ∈ scanPass [0, 0, 0, 0, 0] [0, 0, 0, 0]) :=
  spec_c9 parseFloatNone parseIntZero [0, 0, 0, 0, 0] "0" .int
    [(0, Enc.uint32_le), (1, Enc.uint32_le), (0, Enc.uint32_be), (1, Enc.uint32_be)]
    [0, 0, 0, 0] rfl rfl rfl 0

/-- The float-to-binary32 conversion fails only with `OverflowError`. -/
theorem roundF64toF32word_error (x : PyFloat) (e : PyError)
    (h : roundF64toF32word x = .error e) : e = .overflowError := by
  simp only [roundF64toF32word] at h
  repeat' split at h
  all_goals first
  | (injection h with h2; exact h2.symm)
  | simp at h

/-- C4 (amended): the scan aborts — with no partial results and
independently of the buffer — exactly when the target fails to parse for
the requested class (`ValueError`), or the parsed integer lies outside
`[0, 4294967295]` (`struct.error`), or the parsed float is finite but too
large in magnitude to encode as binary32 (`OverflowError`); no further
error can abort it. -/
theorem spec_c4_amended (pF : String → Option PyFloat) (pI : String → Option Int)
    (data : List Nat) (t : String) (vt : ValueType) :
    (scan_for_value pF pI data t vt = .error .valueError ↔
      (match vt with | .float => pF t = none | .int => pI t = none)) ∧
    (scan_for_value pF pI data t vt = .error .structError ↔
      (vt = .int ∧ ∃ n, pI t = some n ∧ ¬(0 ≤ n ∧ n < 4294967296))) ∧
    (scan_for_value pF pI data t vt = .error .overflowError ↔
      (vt = .float ∧ ∃ x, pF t = some x ∧
        roundF64toF32word x = .error .overflowError)) ∧
    (∀ e, scan_for_value pF pI data t vt = .error e ↔
      scan_for_value pF pI [] t vt = .error e) := by
  cases vt
  case float =>
    cases hx : pF t
    case none => simp [scan_for_value, hx]
    case some x =>
      cases hw : roundF64toF32word x
      case error e =>
        have he := roundF64toF32word_error x e hw
        subst he
        simp [scan_for_value, hx, pack_f32_le, pack_f32_be, hw]
      case ok w =>
        simp [scan_for_value, hx, pack_f32_le, pack_f32_be, hw]
  case int =>
    cases hx : pI t
    case none => simp [scan_for_value, hx]
    case some n =>
      by_cases hr : (0 ≤ n ∧ n < 4294967296)
      · simp [scan_for_value, hx, pack_u32_le, pack_u32_be, hr]
      · simp [scan_for_value, hx, pack_u32_le, pack_u32_be, hr]
        omega

/-- C4 counterexample: the decimal string for `2^128` parses as a Python
float (it is exactly representable in binary64), yet the scan aborts with
`OverflowError` — an abort that is neither a parse failure nor an integer
range violation, refuting the claim that a parseable float target never
aborts. -/
theorem spec_c4_counterexample :
    parseFloatTwo128 "340282366920938463463374607431768211456" ≠ none ∧
    scan_for_value parseFloatTwo128 parseIntNone [0, 0, 0, 0]
      "340282366920938463463374607431768211456" .float = .error .overflowError ∧
    PyError.overflowError ≠ PyError.valueError ∧
    PyError.overflowError ≠ PyError.structError := by
  refine ⟨by simp [parseFloatTwo128], ?_, by simp, by simp⟩
  rfl
